import Mathlib

/-!
Verification of the deet debugger core (src/proj-1/deet) against its
natural-language specification.

The development shallowly embeds the Rust source:

* tracee memory is a map from word-aligned addresses to 64-bit words
  (ptrace peek/poke only operate at word granularity);
* `Inferior.write_byte` (inferior.rs, lines 122-135) and
  `align_addr_to_word` (lines 138-140) are translated literally, with
  u64 arithmetic rendered as `Nat` operations that stay below `2 ^ 64`;
* the `Debugger::run` command arms (debugger.rs) are translated as pure
  functions from the command input and the relevant session state to the
  produced output and next state, with the ptrace side effects of a run
  or continue recorded as an explicit event list.
-/

namespace Deet

/-- Tracee memory: a total map from (word-aligned) addresses to the u64
word stored there.  Well-formed memories keep every word below `2 ^ 64`;
the theorems take that bound as a hypothesis where it matters. -/
abbrev Mem := Nat → Nat

/-- inferior.rs, lines 138-140:
`addr & (-(size_of::<u64>() as i64) as u64)`.
On u64, `-(8 : i64) as u64` is `2 ^ 64 - 8`, so the mask keeps bits 3..63. -/
def align_addr_to_word (addr : Nat) : Nat :=
  addr &&& (2 ^ 64 - 8)

/-- Byte number `j` (little endian) of a word: `(w >> (8 * j)) & 0xff`.
This is the extraction expression used by `write_byte` for `orig_byte`. -/
def byteAt (w : Nat) (j : Nat) : Nat :=
  (w >>> (8 * j)) &&& 0xff

/-- inferior.rs, lines 122-135, `Inferior::write_byte`: align the address
down to the enclosing word, ptrace-read the word, splice the new byte in
by shift-and-mask, ptrace-write the word back, and return the overwritten
byte.  The Rust complement `!(0xff << 8 * byte_offset)` on u64 is
`(2 ^ 64 - 1) ^^^ (0xff <<< (8 * byte_offset))`.  The ptrace read/write
pair is rendered as a lookup and a pointwise update of the memory map. -/
def write_byte (mem : Mem) (addr : Nat) (val : Nat) : Nat × Mem :=
  let aligned_addr := align_addr_to_word addr
  let byte_offset := addr - aligned_addr
  let word := mem aligned_addr
  let orig_byte := (word >>> (8 * byte_offset)) &&& 0xff
  let masked_word := word &&& ((2 ^ 64 - 1) ^^^ (0xff <<< (8 * byte_offset)))
  let updated_word := masked_word ||| (val <<< (8 * byte_offset))
  (orig_byte, fun a => if a = aligned_addr then updated_word else mem a)

/-- The byte a ptrace peek of the word containing `addr` observes at
`addr` itself. -/
def readByte (mem : Mem) (addr : Nat) : Nat :=
  byteAt (mem (align_addr_to_word addr)) (addr - align_addr_to_word addr)

/-! ### Bit-level facts about the word splice -/

theorem align_addr_to_word_eq (addr : Nat) (h : addr < 2 ^ 64) :
    align_addr_to_word addr = 8 * (addr / 8) := by
  have hmask : (2 ^ 64 - 8 : Nat) = (2 ^ 61 - 1) <<< 3 := by
    rw [Nat.shiftLeft_eq]
    norm_num
  have hdiv : 8 * (addr / 8) = (addr >>> 3) <<< 3 := by
    rw [Nat.shiftLeft_eq, Nat.shiftRight_eq_div_pow]
    norm_num
    omega
  apply Nat.eq_of_testBit_eq
  intro i
  rw [align_addr_to_word, hmask, hdiv]
  simp only [Nat.testBit_and, Nat.testBit_shiftLeft, Nat.testBit_shiftRight,
    Nat.testBit_two_pow_sub_one]
  by_cases h3 : 3 ≤ i
  · by_cases h64 : i < 64
    · simp [h3, Nat.add_sub_cancel' h3, show i - 3 < 61 by omega]
    · have hbf : addr.testBit i = false := by
        apply Nat.testBit_lt_two_pow
        calc addr < 2 ^ 64 := h
          _ ≤ 2 ^ i := Nat.pow_le_pow_right (by norm_num) (by omega)
      have h61 : ¬ (i - 3 < 61) := by omega
      have h3i : 3 + (i - 3) = i := by omega
      simp [h3, h61, h3i, hbf]
  · simp [h3, show ¬(i ≥ 3) by omega]

theorem byte_offset_eq (addr : Nat) (h : addr < 2 ^ 64) :
    addr - align_addr_to_word addr = addr % 8 := by
  rw [align_addr_to_word_eq addr h]
  omega

theorem byte_offset_lt (addr : Nat) (h : addr < 2 ^ 64) :
    addr - align_addr_to_word addr < 8 := by
  rw [byte_offset_eq addr h]
  omega

theorem byteAt_lt (w j : Nat) : byteAt w j < 256 := by
  have : byteAt w j ≤ 0xff := Nat.and_le_right
  omega

theorem testBit_255 (t : Nat) : Nat.testBit 255 t = decide (t < 8) := by
  have h : (255 : Nat) = 2 ^ 8 - 1 := by norm_num
  rw [h, Nat.testBit_two_pow_sub_one]

theorem testBit_byteAt (w j t : Nat) :
    (byteAt w j).testBit t = (w.testBit (8 * j + t) && decide (t < 8)) := by
  rw [byteAt, Nat.testBit_and, Nat.testBit_shiftRight, testBit_255]

/-- The spliced word `masked_word ||| (val <<< (8 * off))` of `write_byte`,
bit by bit: inside the target byte it carries `val`, outside it carries the
old word truncated to 64 bits. -/
theorem testBit_spliced (w val off i : Nat) (hoff : off < 8) (hval : val < 256) :
    ((w &&& ((2 ^ 64 - 1) ^^^ (0xff <<< (8 * off)))) ||| (val <<< (8 * off))).testBit i
      = if 8 * off ≤ i ∧ i < 8 * off + 8 then val.testBit (i - 8 * off)
        else (w.testBit i && decide (i < 64)) := by
  rw [Nat.testBit_or, Nat.testBit_and, Nat.testBit_xor, Nat.testBit_shiftLeft,
    Nat.testBit_shiftLeft, Nat.testBit_two_pow_sub_one, testBit_255]
  by_cases hlo : 8 * off ≤ i
  · by_cases hhi : i < 8 * off + 8
    · have hin : i - 8 * off < 8 := by omega
      have h64 : i < 64 := by omega
      rw [if_pos (And.intro hlo hhi)]
      simp [hlo, hin, h64, ge_iff_le]
    · have hout : ¬ (i - 8 * off < 8) := by omega
      have hvf : val.testBit (i - 8 * off) = false := by
        apply Nat.testBit_lt_two_pow
        calc val < 256 := hval
          _ = 2 ^ 8 := by norm_num
          _ ≤ 2 ^ (i - 8 * off) := Nat.pow_le_pow_right (by norm_num) (by omega)
      rw [if_neg (by omega : ¬ (8 * off ≤ i ∧ i < 8 * off + 8))]
      simp [hlo, hout, hvf, ge_iff_le]
  · rw [if_neg (by omega : ¬ (8 * off ≤ i ∧ i < 8 * off + 8))]
    simp [hlo, ge_iff_le, show ¬ (8 * off ≤ i) from hlo]

/-- The spliced word carries `val` at the target byte. -/
theorem byteAt_spliced_self (w val off : Nat) (hoff : off < 8) (hval : val < 256) :
    byteAt ((w &&& ((2 ^ 64 - 1) ^^^ (0xff <<< (8 * off)))) ||| (val <<< (8 * off))) off
      = val := by
  apply Nat.eq_of_testBit_eq
  intro t
  rw [testBit_byteAt, testBit_spliced w val off (8 * off + t) hoff hval]
  by_cases ht : t < 8
  · rw [if_pos (by omega : 8 * off ≤ 8 * off + t ∧ 8 * off + t < 8 * off + 8)]
    simp [ht, Nat.add_sub_cancel_left]
  · have hvf : val.testBit t = false := by
      apply Nat.testBit_lt_two_pow
      calc val < 256 := hval
        _ = 2 ^ 8 := by norm_num
        _ ≤ 2 ^ t := Nat.pow_le_pow_right (by norm_num) (by omega)
    rw [if_neg (by omega : ¬ (8 * off ≤ 8 * off + t ∧ 8 * off + t < 8 * off + 8))]
    simp [ht, hvf]

/-- The spliced word keeps every other byte of the word unchanged. -/
theorem byteAt_spliced_other (w val off j : Nat) (hoff : off < 8) (hval : val < 256)
    (hj : j < 8) (hne : j ≠ off) :
    byteAt ((w &&& ((2 ^ 64 - 1) ^^^ (0xff <<< (8 * off)))) ||| (val <<< (8 * off))) j
      = byteAt w j := by
  apply Nat.eq_of_testBit_eq
  intro t
  rw [testBit_byteAt, testBit_byteAt, testBit_spliced w val off (8 * j + t) hoff hval]
  by_cases ht : t < 8
  · have hrange : ¬ (8 * off ≤ 8 * j + t ∧ 8 * j + t < 8 * off + 8) := by omega
    have h64 : 8 * j + t < 64 := by omega
    rw [if_neg hrange]
    simp [ht, h64]
  · simp [ht]

/-- Splicing the extracted byte back restores the original word exactly
(for a genuine 64-bit word). -/
theorem spliced_roundtrip (w v off : Nat) (hoff : off < 8) (hv : v < 256)
    (hw : w < 2 ^ 64) :
    ((((w &&& ((2 ^ 64 - 1) ^^^ (0xff <<< (8 * off)))) ||| (v <<< (8 * off)))
          &&& ((2 ^ 64 - 1) ^^^ (0xff <<< (8 * off))))
        ||| (((w >>> (8 * off)) &&& 0xff) <<< (8 * off))) = w := by
  have horig : (w >>> (8 * off)) &&& 0xff = byteAt w off := rfl
  have horig_lt : byteAt w off < 256 := byteAt_lt w off
  apply Nat.eq_of_testBit_eq
  intro i
  rw [horig, testBit_spliced _ (byteAt w off) off i hoff horig_lt]
  by_cases hrange : 8 * off ≤ i ∧ i < 8 * off + 8
  · rw [if_pos hrange]
    rw [testBit_byteAt]
    have : 8 * off + (i - 8 * off) = i := by omega
    simp [this, show i - 8 * off < 8 by omega]
  · rw [if_neg hrange]
    rw [testBit_spliced w v off i hoff hv, if_neg hrange]
    by_cases h64 : i < 64
    · simp [h64]
    · have hwf : w.testBit i = false := by
        apply Nat.testBit_lt_two_pow
        calc w < 2 ^ 64 := hw
          _ ≤ 2 ^ i := Nat.pow_le_pow_right (by norm_num) (by omega)
      simp [h64, hwf]

/-! ### `write_byte` as seen through `readByte` -/

theorem write_byte_fst (mem : Mem) (addr val : Nat) :
    (write_byte mem addr val).1 = readByte mem addr := rfl

theorem write_byte_snd_other (mem : Mem) (addr val a : Nat)
    (h : a ≠ align_addr_to_word addr) :
    (write_byte mem addr val).2 a = mem a := by
  simp [write_byte, h]

theorem readByte_write_self (mem : Mem) (addr val : Nat)
    (ha : addr < 2 ^ 64) (hval : val < 256) :
    readByte ((write_byte mem addr val).2) addr = val := by
  have hoff : addr - align_addr_to_word addr < 8 := byte_offset_lt addr ha
  rw [readByte, write_byte]
  simp only [if_pos rfl]
  exact byteAt_spliced_self _ val _ hoff hval

theorem readByte_write_other (mem : Mem) (addr addr' val : Nat)
    (ha : addr < 2 ^ 64) (ha' : addr' < 2 ^ 64) (hne : addr' ≠ addr)
    (hval : val < 256) :
    readByte ((write_byte mem addr val).2) addr' = readByte mem addr' := by
  by_cases halign : align_addr_to_word addr' = align_addr_to_word addr
  · have hoff : addr - align_addr_to_word addr < 8 := byte_offset_lt addr ha
    have hoff' : addr' - align_addr_to_word addr < 8 := halign ▸ byte_offset_lt addr' ha'
    have hoffne : addr' - align_addr_to_word addr ≠ addr - align_addr_to_word addr := by
      intro hcontra
      apply hne
      have e1 := align_addr_to_word_eq addr ha
      have e2 := align_addr_to_word_eq addr' ha'
      omega
    rw [readByte, readByte, halign, write_byte]
    simp only [if_pos rfl]
    exact byteAt_spliced_other _ val _ _ hoff hval hoff' hoffne
  · rw [readByte, write_byte_snd_other mem addr val _ halign, readByte]

/-- Claim C2 core.  For all addresses, `patch_byte(a, v)` followed by
`patch_byte(a, original)` restores the exact pre-patch memory: the whole
machine word at the enclosing aligned address, every neighboring byte
included, and every other word untouched. -/
theorem write_byte_roundtrip (mem : Mem) (addr v : Nat)
    (ha : addr < 2 ^ 64) (hv : v < 256)
    (hw : mem (align_addr_to_word addr) < 2 ^ 64) :
    (write_byte ((write_byte mem addr v).2) addr ((write_byte mem addr v).1)).2 = mem := by
  have hoff : addr - align_addr_to_word addr < 8 := byte_offset_lt addr ha
  funext a
  by_cases haddr : a = align_addr_to_word addr
  · subst haddr
    rw [write_byte, write_byte]
    simp only [if_pos rfl]
    exact spliced_roundtrip (mem (align_addr_to_word addr)) v _ hoff hv hw
  · rw [write_byte_snd_other _ addr _ _ haddr, write_byte_snd_other _ addr _ _ haddr]

/-! ### Process control: `Inferior::new`, the run arm and the continue arm -/

/-- The signals relevant to the debugger (a subset of `nix::sys::signal::Signal`). -/
inductive Signal where
  | SIGTRAP
  | SIGINT
  | SIGSEGV
  | SIGKILL
  | SIGALRM
deriving DecidableEq

/-- inferior.rs, lines 16-27: the `Status` enum produced by `Inferior::wait`. -/
inductive Status where
  | Stopped (signal : Signal) (rip : Nat)
  | Exited (exit_code : Int)
  | Signaled (signal : Signal)
deriving DecidableEq

/-- The ptrace-level actions the debugger can perform on the tracee, in
program order.  `write_byte` performs one `peek` of the enclosing word
followed by one `poke` of the spliced word; `Inferior::cont` performs one
`contSignal` (PTRACE_CONT); no call to a single-step request exists
anywhere in the source, so `singleStep` is never emitted. -/
inductive PtraceEvent where
  | spawnEvt
  | waitEvt
  | peek (addr : Nat)
  | poke (addr : Nat) (word : Nat)
  | singleStep
  | contSignal
deriving DecidableEq

def isPoke : PtraceEvent → Bool
  | PtraceEvent.poke _ _ => true
  | _ => false

/-- The two ptrace events one `write_byte` call performs. -/
def write_byte_events (mem : Mem) (addr val : Nat) : List PtraceEvent :=
  [PtraceEvent.peek (align_addr_to_word addr),
   PtraceEvent.poke (align_addr_to_word addr)
     ((write_byte mem addr val).2 (align_addr_to_word addr))]

/-- inferior.rs, lines 62-64: `for addr in breakpoints { i.write_byte(*addr, 0xcc).unwrap(); }`
applied left to right, together with the ptrace events it performs. -/
def patchAllTrace : Mem → List Nat → Mem × List PtraceEvent
  | mem, [] => (mem, [])
  | mem, a :: rest =>
    let tail := patchAllTrace (write_byte mem a 0xcc).2 rest
    (tail.1, write_byte_events mem a 0xcc ++ tail.2)

/-- inferior.rs, lines 45-74, `Inferior::new`:
spawn the child with TRACEME (`spawnOk` models whether `spawn()` succeeded),
wait for the first status (`first`; `none` models a failing `waitpid`),
require it to be `Stopped` (otherwise return `None`), patch `0xcc` over
every recorded breakpoint address, and finally require the stopping signal
to be SIGTRAP.  Returns the resulting tracee memory plus the ptrace events
performed. -/
def Inferior.newModel (spawnOk : Bool) (first : Option Status) (breakpoints : List Nat)
    (mem : Mem) : Option Mem × List PtraceEvent :=
  if spawnOk then
    match first with
    | none => (none, [PtraceEvent.spawnEvt, PtraceEvent.waitEvt])
    | some status =>
      match status with
      | Status.Stopped signal _ =>
        let patched := patchAllTrace mem breakpoints
        (match signal with
         | Signal.SIGTRAP => some patched.1
         | _ => none,
         [PtraceEvent.spawnEvt, PtraceEvent.waitEvt] ++ patched.2)
      | _ => (none, [PtraceEvent.spawnEvt, PtraceEvent.waitEvt])
  else (none, [PtraceEvent.spawnEvt])

/-- inferior.rs, lines 98-103, `Inferior::cont`: a single PTRACE_CONT and
nothing else — no memory restore, no single step, no re-patch. -/
def Inferior.contEvents : List PtraceEvent := [PtraceEvent.contSignal]

/-- debugger.rs, lines 52-64, the `Run` arm: build the inferior (patching
recorded breakpoints), then `cont`, then `wait`.  `tracee = none` is the
`println!("Error starting subprocess")` path. -/
structure RunResult where
  tracee : Option Mem
  events : List PtraceEvent

def runCommandModel (spawnOk : Bool) (first : Option Status) (breakpoints : List Nat)
    (mem : Mem) : RunResult :=
  match Inferior.newModel spawnOk first breakpoints mem with
  | (some m, evs) => ⟨some m, evs ++ Inferior.contEvents ++ [PtraceEvent.waitEvt]⟩
  | (none, evs) => ⟨none, evs⟩

/-- debugger.rs, lines 65-74, the `Continue` arm with a live inferior:
`inferior.cont()` followed by `inferior.wait(None)`.  The tracee memory is
not touched by the controller. -/
def continueArmModel (mem : Mem) : Mem × List PtraceEvent :=
  (mem, Inferior.contEvents ++ [PtraceEvent.waitEvt])

/-! ### Facts about patching -/

theorem patchAllTrace_readByte_preserved (bps : List Nat) (mem : Mem) (a : Nat)
    (ha : a < 2 ^ 64) (hb : ∀ b ∈ bps, b < 2 ^ 64) (hna : a ∉ bps) :
    readByte (patchAllTrace mem bps).1 a = readByte mem a := by
  induction bps generalizing mem with
  | nil => rfl
  | cons b rest ih =>
    have hbb : b < 2 ^ 64 := hb b (List.mem_cons_self b rest)
    have hrest : ∀ x ∈ rest, x < 2 ^ 64 := fun x hx => hb x (List.mem_cons_of_mem b hx)
    have hane : a ≠ b := fun hcontra => hna (hcontra ▸ List.mem_cons_self b rest)
    have hnar : a ∉ rest := fun hcontra => hna (List.mem_cons_of_mem b hcontra)
    rw [patchAllTrace]
    rw [ih _ hrest hnar]
    exact readByte_write_other mem b a 0xcc hbb ha hane (by norm_num)

theorem patchAllTrace_readByte_set (bps : List Nat) (mem : Mem) (a : Nat)
    (hb : ∀ b ∈ bps, b < 2 ^ 64) (hmem : a ∈ bps) :
    readByte (patchAllTrace mem bps).1 a = 0xcc := by
  induction bps generalizing mem with
  | nil => exact absurd hmem (List.not_mem_nil a)
  | cons b rest ih =>
    have hbb : b < 2 ^ 64 := hb b (List.mem_cons_self b rest)
    have hrest : ∀ x ∈ rest, x < 2 ^ 64 := fun x hx => hb x (List.mem_cons_of_mem b hx)
    rw [patchAllTrace]
    by_cases har : a ∈ rest
    · exact ih _ hrest har
    · have hab : a = b := by
        rcases List.mem_cons.mp hmem with h | h
        · exact h
        · exact absurd h har
      subst hab
      rw [patchAllTrace_readByte_preserved rest _ a hbb hrest har]
      exact readByte_write_self mem a 0xcc hbb (by norm_num)

theorem patchAllTrace_poke_mem (bps : List Nat) (mem : Mem) (a : Nat) (ha : a ∈ bps) :
    ∃ w, PtraceEvent.poke (align_addr_to_word a) w ∈ (patchAllTrace mem bps).2 := by
  induction bps generalizing mem with
  | nil => exact absurd ha (List.not_mem_nil a)
  | cons b rest ih =>
    rw [patchAllTrace]
    rcases List.mem_cons.mp ha with h | h
    · subst h
      refine ⟨(write_byte mem a 0xcc).2 (align_addr_to_word a), ?_⟩
      simp [write_byte_events]
    · rcases ih ((write_byte mem b 0xcc).2) h with ⟨w, hw⟩
      exact ⟨w, by simp [hw]⟩

theorem patchAllTrace_no_cont (bps : List Nat) (mem : Mem) :
    PtraceEvent.contSignal ∉ (patchAllTrace mem bps).2 := by
  induction bps generalizing mem with
  | nil => simp [patchAllTrace]
  | cons b rest ih =>
    rw [patchAllTrace]
    simp [write_byte_events, ih]

/-! ### The `BreakPoint` command arm of `Debugger::run`

Strings are modelled as their character lists (the inputs of interest are
ASCII, where Rust byte indexing and character indexing agree). -/

/-- Rust `char::to_digit(16)` on the characters `from_str_radix(_, 16)`
accepts: `0`-`9`, `a`-`f`, `A`-`F`. -/
def hexDigitVal (c : Char) : Option Nat :=
  if 48 ≤ c.toNat ∧ c.toNat ≤ 57 then some (c.toNat - 48)
  else if 97 ≤ c.toNat ∧ c.toNat ≤ 102 then some (c.toNat - 97 + 10)
  else if 65 ≤ c.toNat ∧ c.toNat ≤ 70 then some (c.toNat - 65 + 10)
  else none

/-- Accumulate hex digits with the u64 overflow check of `from_str_radix`
(checked multiply-and-add; any value reaching `2 ^ 64` is an error). -/
def hexAccum (digits : List Char) : Option Nat :=
  digits.foldlM (fun acc c =>
    match hexDigitVal c with
    | some d => if acc * 16 + d < 2 ^ 64 then some (acc * 16 + d) else none
    | none => none) 0

/-- Rust `u64::from_str_radix(s, 16)`: an optional leading sign, then at
least one hex digit; invalid digits and u64 overflow give `Err` (rendered
`none`); a `-` sign errors on any nonzero value. -/
def from_str_radix_16 (s : List Char) : Option Nat :=
  match s with
  | [] => none
  | c :: rest =>
    if c == '+' then (if rest.isEmpty then none else hexAccum rest)
    else if c == '-' then
      match (if rest.isEmpty then none else hexAccum rest) with
      | some 0 => some 0
      | _ => none
    else hexAccum s

/-- Rust `char::to_lowercase` restricted to ASCII (the only characters the
`0x`-prefix test can match). -/
def charToLower (c : Char) : Char :=
  if 65 ≤ c.toNat ∧ c.toNat ≤ 90 then Char.ofNat (c.toNat + 32) else c

/-- `str::starts_with("0x")` applied to the lowercased string. -/
def starts_with_0x : List Char → Bool
  | c1 :: c2 :: _ => c1 == '0' && c2 == 'x'
  | _ => false

/-- debugger.rs, lines 185-192, `Debugger::parse_address`: strip a
case-insensitive `0x` prefix (the slice `&addr[2..]` is taken from the
original string), then `u64::from_str_radix(_, 16)`. -/
def parse_address (addr : List Char) : Option Nat :=
  let addr_without_0x :=
    if starts_with_0x (addr.map charToLower) then addr.drop 2 else addr
  from_str_radix_16 addr_without_0x

/-- The two Symbol Index lookups the `BreakPoint` arm consumes
(dwarf_data.rs is not part of the sources; per spec section 4.3 the index
is an external read-only map, so the lookups are abstract functions here;
the `None` file-filter argument the source always passes is omitted). -/
structure DwarfData where
  get_addr_for_line : Nat → Option Nat
  get_addr_for_function : List Char → Option Nat

/-- `str::starts_with("*")`. -/
def starts_with_star : List Char → Bool
  | c :: _ => c == '*'
  | [] => false

/-- `regex.replace("*", "")`: every asterisk removed. -/
def replace_star (s : List Char) : List Char :=
  s.filter (fun c => !(c == '*'))

/-- debugger.rs, lines 93-108: the value of `point` after the non-literal
lookups.  `point` starts at 0; a successful hex parse routes to the line
lookup only (the `else if` function lookup is skipped even when the line
lookup finds nothing); an unparseable text routes to the function lookup;
a lookup miss leaves `point = 0`. -/
def resolvePoint (dw : DwarfData) (regex : List Char) : Nat :=
  match parse_address regex with
  | some line =>
    match dw.get_addr_for_line line with
    | some addr => addr
    | none => 0
  | none =>
    match dw.get_addr_for_function regex with
    | some addr => addr
    | none => 0

/-- What the `BreakPoint` arm prints. -/
inductive BPOutput where
  | noBreakpointSet (loc : List Char)
  | setBreakpoint (idx : Nat) (addr : Nat)
deriving DecidableEq

/-- debugger.rs, lines 92-118, the `BreakPoint(regex)` arm, returning the
printed output and the updated `breakpoints` table.  In the `*` literal
branch the parsed address is assigned to `point` and then discarded: the
branch unconditionally prints the no-breakpoint message and `continue`s.
In the non-literal branch, `point == 0` prints the no-breakpoint message
and adds nothing; otherwise the arm prints the new index
(`breakpoints.len()`) and pushes `point`. -/
def breakCommand (dw : DwarfData) (breakpoints : List Nat) (regex : List Char) :
    BPOutput × List Nat :=
  if starts_with_star regex then
    let nregex := replace_star regex
    (BPOutput.noBreakpointSet nregex, breakpoints)
  else
    let point := resolvePoint dw regex
    if point = 0 then (BPOutput.noBreakpointSet regex, breakpoints)
    else (BPOutput.setBreakpoint breakpoints.length point, breakpoints ++ [point])

/-- Outcome of one iteration of the session loop on a `break` command. -/
inductive CmdOutcome where
  | continues (out : BPOutput) (breakpoints : List Nat)
  | panicked
deriving DecidableEq

/-- debugger.rs, lines 92-118 including lines 115-117: after pushing a
resolved breakpoint, a live `self.inferior` is patched with
`write_byte(point, 0xcc).unwrap()`.  The ptrace calls inside `write_byte`
fail when the traced process is gone (for example, it already exited while
`self.inferior` is still `Some`), and `.unwrap()` then panics, aborting
the whole debugger process.  `inferior` is `none` when no inferior exists
and `some alive` otherwise, `alive` telling whether the ptrace calls
succeed. -/
def breakCommandSession (dw : DwarfData) (breakpoints : List Nat) (regex : List Char)
    (inferior : Option Bool) : CmdOutcome :=
  if starts_with_star regex then
    CmdOutcome.continues (BPOutput.noBreakpointSet (replace_star regex)) breakpoints
  else
    let point := resolvePoint dw regex
    if point = 0 then CmdOutcome.continues (BPOutput.noBreakpointSet regex) breakpoints
    else
      match inferior with
      | some alive =>
        if alive then
          CmdOutcome.continues (BPOutput.setBreakpoint breakpoints.length point)
            (breakpoints ++ [point])
        else CmdOutcome.panicked
      | none =>
        CmdOutcome.continues (BPOutput.setBreakpoint breakpoints.length point)
          (breakpoints ++ [point])

/-- Modelled from the spec: decimal digit of the spec's
"decimal source line number" location form (section 4.2 and section 6). -/
def decDigitVal (c : Char) : Option Nat :=
  if 48 ≤ c.toNat ∧ c.toNat ≤ 57 then some (c.toNat - 48) else none

/-- Modelled from the spec: parse of a decimal line number (section 6,
`<decimal-line-number>`): one or more decimal digits. -/
def parse_decimal (s : List Char) : Option Nat :=
  match s with
  | [] => none
  | _ =>
    s.foldlM (fun acc c =>
      match decDigitVal c with
      | some d => some (acc * 10 + d)
      | none => none) 0

/-- Modelled from the spec, section 4.2: for a non-literal location, "first
tried as a line-number lookup against the Symbol Index, then as a
function-name lookup if that fails". -/
def resolveSpecPoint (dw : DwarfData) (regex : List Char) : Option Nat :=
  match parse_decimal regex with
  | some line =>
    match dw.get_addr_for_line line with
    | some addr => some addr
    | none => dw.get_addr_for_function regex
  | none => dw.get_addr_for_function regex

/-! ### Concrete symbol indexes and inputs used by witnesses and
counterexamples -/

def mainChars : List Char := ['m', 'a', 'i', 'n']

def ffChars : List Char := ['f', 'f']

def aChars : List Char := ['a']

def literal1000Chars : List Char := ['*', '0', 'x', '1', '0', '0', '0']

def stripped1000Chars : List Char := ['0', 'x', '1', '0', '0', '0']

/-- A target whose function `main` has its entry at `0x1000` and which has
no line-table entries. -/
def dwMain : DwarfData where
  get_addr_for_line := fun _ => none
  get_addr_for_function := fun s => if s = mainChars then some 0x1000 else none

/-- A target with a function named `ff` at `0x2000` and no line-table
entries (in particular none for line 255 = 0xff). -/
def dwFF : DwarfData where
  get_addr_for_line := fun _ => none
  get_addr_for_function := fun s => if s = ffChars then some 0x2000 else none

/-- A target whose line lookup resolves to address 0 (for example a line
mapped to the null address in a malformed table). -/
def dwLineZero : DwarfData where
  get_addr_for_line := fun _ => some 0
  get_addr_for_function := fun _ => none

/-! ### Auxiliary facts about the run arm -/

theorem runCommandModel_of_none (spawnOk : Bool) (first : Option Status) (bps : List Nat)
    (mem : Mem) (h : (Inferior.newModel spawnOk first bps mem).1 = none) :
    runCommandModel spawnOk first bps mem
      = ⟨none, (Inferior.newModel spawnOk first bps mem).2⟩ := by
  rw [runCommandModel]
  rcases hEq : Inferior.newModel spawnOk first bps mem with ⟨t, evs⟩
  rw [hEq] at h
  simp only at h
  subst h
  rfl

/-- `Inferior::new` never resumes the tracee: no PTRACE_CONT appears among
its ptrace events. -/
theorem newModel_no_cont (spawnOk : Bool) (first : Option Status) (bps : List Nat)
    (mem : Mem) :
    PtraceEvent.contSignal ∉ (Inferior.newModel spawnOk first bps mem).2 := by
  cases spawnOk with
  | false => simp [Inferior.newModel]
  | true =>
    cases first with
    | none => simp [Inferior.newModel]
    | some status =>
      cases status with
      | Stopped signal rip => simp [Inferior.newModel, patchAllTrace_no_cont bps mem]
      | Exited c => simp [Inferior.newModel]
      | Signaled s => simp [Inferior.newModel]

/-! ### Claim theorems -/

/-- C1: the claim states that a continue issued while the tracee is stopped
exactly at a patched breakpoint first restores the original byte,
single-steps, re-installs the trap byte and only then continues.  The code
does not: the `Continue` arm calls `Inferior::cont`, which performs a
single plain PTRACE_CONT — the controller pokes no byte back, never
single-steps, and leaves the trap byte installed at the breakpoint address
when the continue is issued. -/
theorem c1_continue_issues_plain_cont (mem : Mem) (addr : Nat) :
    readByte (continueArmModel mem).1 addr = readByte mem addr
    ∧ (continueArmModel mem).2.filter isPoke = []
    ∧ PtraceEvent.singleStep ∉ (continueArmModel mem).2
    ∧ PtraceEvent.contSignal ∈ (continueArmModel mem).2 := by
  refine ⟨rfl, rfl, ?_, ?_⟩ <;> simp [continueArmModel, Inferior.contEvents, isPoke]

/-- C2: `patch_byte(a, v)` followed by `patch_byte(a, original)` restores
the exact pre-patch memory — the full machine word at the enclosing
aligned address, neighboring bytes included, and every other word
untouched. -/
theorem c2_patch_byte_roundtrip (mem : Mem) (addr v : Nat)
    (ha : addr < 2 ^ 64) (hv : v < 256)
    (hw : mem (align_addr_to_word addr) < 2 ^ 64) :
    (write_byte ((write_byte mem addr v).2) addr ((write_byte mem addr v).1)).2 = mem :=
  write_byte_roundtrip mem addr v ha hv hw

def memC2 : Mem := fun a => if a = 0x1000 then 0x1122334455667788 else 0

theorem c2_witness :
    (0x1003 : Nat) < 2 ^ 64 ∧ (0xcc : Nat) < 256
    ∧ memC2 (align_addr_to_word 0x1003) < 2 ^ 64
    ∧ (write_byte ((write_byte memC2 0x1003 0xcc).2) 0x1003
        ((write_byte memC2 0x1003 0xcc).1)).2 = memC2 :=
  ⟨by decide, by decide, by decide,
    c2_patch_byte_roundtrip memC2 0x1003 0xcc (by decide) (by decide) (by decide)⟩

/-- The updated word a `write_byte` stores at the aligned address. -/
theorem write_byte_snd_self (mem : Mem) (addr val : Nat) :
    (write_byte mem addr val).2 (align_addr_to_word addr)
      = ((mem (align_addr_to_word addr))
            &&& ((2 ^ 64 - 1) ^^^ (0xff <<< (8 * (addr - align_addr_to_word addr)))))
        ||| (val <<< (8 * (addr - align_addr_to_word addr))) := by
  simp [write_byte]

/-- C3: `patch_byte` aligns the address down to the enclosing 8-byte word
boundary, returns the byte previously stored at offset `addr % 8` of that
word, stores `val` at exactly that byte, leaves every other byte of the
word unchanged, and leaves every other word of memory unchanged. -/
theorem c3_patch_byte_word_splice (mem : Mem) (addr val : Nat)
    (ha : addr < 2 ^ 64) (hval : val < 256) :
    align_addr_to_word addr = 8 * (addr / 8)
    ∧ (write_byte mem addr val).1 = byteAt (mem (align_addr_to_word addr)) (addr % 8)
    ∧ byteAt ((write_byte mem addr val).2 (align_addr_to_word addr)) (addr % 8) = val
    ∧ (∀ j, j < 8 → j ≠ addr % 8 →
        byteAt ((write_byte mem addr val).2 (align_addr_to_word addr)) j
          = byteAt (mem (align_addr_to_word addr)) j)
    ∧ ∀ a, a ≠ align_addr_to_word addr → (write_byte mem addr val).2 a = mem a := by
  refine ⟨align_addr_to_word_eq addr ha, ?_, ?_, ?_, ?_⟩
  · rw [← byte_offset_eq addr ha]
    rfl
  · rw [write_byte_snd_self, ← byte_offset_eq addr ha]
    exact byteAt_spliced_self _ val _ (byte_offset_lt addr ha) hval
  · intro j hj hne
    rw [write_byte_snd_self]
    refine byteAt_spliced_other _ val _ j (byte_offset_lt addr ha) hval hj ?_
    rw [byte_offset_eq addr ha]
    exact hne
  · intro a haa
    exact write_byte_snd_other mem addr val a haa

def memC3 : Mem := fun a => if a = 0 then 0x0807060504030201 else 0

theorem c3_witness :
    (3 : Nat) < 2 ^ 64 ∧ (0xab : Nat) < 256
    ∧ (align_addr_to_word 3 = 8 * (3 / 8)
      ∧ (write_byte memC3 3 0xab).1 = byteAt (memC3 (align_addr_to_word 3)) (3 % 8)
      ∧ byteAt ((write_byte memC3 3 0xab).2 (align_addr_to_word 3)) (3 % 8) = 0xab
      ∧ (∀ j, j < 8 → j ≠ 3 % 8 →
          byteAt ((write_byte memC3 3 0xab).2 (align_addr_to_word 3)) j
            = byteAt (memC3 (align_addr_to_word 3)) j)
      ∧ ∀ a, a ≠ align_addr_to_word 3 → (write_byte memC3 3 0xab).2 a = memC3 a) :=
  ⟨by decide, by decide, c3_patch_byte_word_splice memC3 3 0xab (by decide) (by decide)⟩

/-- C4: `Inferior::new` produces a tracee exactly when the first observed
wait status is `Stopped` with SIGTRAP; for any other first status
(including an exit before the trap, a stop on another signal, a spawn
failure or a failing wait) it produces none, and the run arm then stores
no inferior and issues no continue. -/
theorem c4_new_requires_initial_sigtrap (spawnOk : Bool) (first : Option Status)
    (bps : List Nat) (mem : Mem) :
    ((Inferior.newModel spawnOk first bps mem).1.isSome = true
        ↔ spawnOk = true ∧ ∃ rip, first = some (Status.Stopped Signal.SIGTRAP rip))
    ∧ ((Inferior.newModel spawnOk first bps mem).1 = none →
        (runCommandModel spawnOk first bps mem).tracee = none
        ∧ PtraceEvent.contSignal ∉ (runCommandModel spawnOk first bps mem).events) := by
  constructor
  · cases spawnOk with
    | false => simp [Inferior.newModel]
    | true =>
      cases first with
      | none => simp [Inferior.newModel]
      | some status =>
        cases status with
        | Stopped signal rip => cases signal <;> simp [Inferior.newModel]
        | Exited c => simp [Inferior.newModel]
        | Signaled s => simp [Inferior.newModel]
  · intro hnone
    rw [runCommandModel_of_none spawnOk first bps mem hnone]
    exact ⟨rfl, newModel_no_cont spawnOk first bps mem⟩

/-- C5: on a successful start (first stop SIGTRAP), every address recorded
in the breakpoint table carries the trap byte `0xcc` in the tracee memory
the run arm hands to its first continue, and in the ptrace event sequence
every breakpoint receives its poke strictly before the first PTRACE_CONT
is issued. -/
theorem c5_breakpoints_patched_before_first_cont (rip : Nat) (bps : List Nat) (mem : Mem)
    (hb : ∀ a ∈ bps, a < 2 ^ 64) :
    (runCommandModel true (some (Status.Stopped Signal.SIGTRAP rip)) bps mem).tracee
        = some (patchAllTrace mem bps).1
    ∧ (∀ a ∈ bps, readByte (patchAllTrace mem bps).1 a = 0xcc)
    ∧ ∃ pre,
        (runCommandModel true (some (Status.Stopped Signal.SIGTRAP rip)) bps mem).events
          = pre ++ [PtraceEvent.contSignal, PtraceEvent.waitEvt]
        ∧ PtraceEvent.contSignal ∉ pre
        ∧ ∀ a ∈ bps, ∃ w, PtraceEvent.poke (align_addr_to_word a) w ∈ pre := by
  refine ⟨?_, ?_, ?_⟩
  · simp [runCommandModel, Inferior.newModel]
  · intro a haa
    exact patchAllTrace_readByte_set bps mem a hb haa
  · refine ⟨[PtraceEvent.spawnEvt, PtraceEvent.waitEvt] ++ (patchAllTrace mem bps).2,
      ?_, ?_, ?_⟩
    · simp [runCommandModel, Inferior.newModel, Inferior.contEvents]
    · simp [patchAllTrace_no_cont bps mem]
    · intro a haa
      rcases patchAllTrace_poke_mem bps mem a haa with ⟨w, hw⟩
      exact ⟨w, by simp [hw]⟩

def memC5 : Mem := fun _ => 0

theorem c5_witness :
    (∀ a ∈ [(0x1000 : Nat), 0x1001], a < 2 ^ 64)
    ∧ ((runCommandModel true (some (Status.Stopped Signal.SIGTRAP 0)) [0x1000, 0x1001]
          memC5).tracee = some (patchAllTrace memC5 [0x1000, 0x1001]).1
      ∧ (∀ a ∈ [(0x1000 : Nat), 0x1001],
          readByte (patchAllTrace memC5 [0x1000, 0x1001]).1 a = 0xcc)
      ∧ ∃ pre,
          (runCommandModel true (some (Status.Stopped Signal.SIGTRAP 0)) [0x1000, 0x1001]
            memC5).events = pre ++ [PtraceEvent.contSignal, PtraceEvent.waitEvt]
          ∧ PtraceEvent.contSignal ∉ pre
          ∧ ∀ a ∈ [(0x1000 : Nat), 0x1001],
              ∃ w, PtraceEvent.poke (align_addr_to_word a) w ∈ pre) :=
  ⟨by decide,
    c5_breakpoints_patched_before_first_cont 0 [0x1000, 0x1001] memC5 (by decide)⟩

/-- C6 counterexample: with `main` at `0x1000` already in the table, a
second `break main` appends a second entry for the same address and
reports the fresh index 1, not the existing entry's index 0 — the claimed
no-duplicate invariant is false of the code. -/
theorem c6_counterexample :
    breakCommand dwMain [0x1000] mainChars
      = (BPOutput.setBreakpoint 1 0x1000, [0x1000, 0x1000])
    ∧ breakCommand dwMain [0x1000] mainChars
      ≠ (BPOutput.setBreakpoint 0 0x1000, [0x1000]) := by
  decide

/-- C6 amended: the BreakpointTable may contain two entries with the same
address — adding a breakpoint whose location resolves to the (nonzero)
address of an existing entry appends a second entry and reports the fresh
index `breakpoints.len()`, raising the multiplicity of that address. -/
theorem c6_amended_duplicates_appended (dw : DwarfData) (bps : List Nat)
    (regex : List Char) (hstar : starts_with_star regex = false)
    (_hmem : resolvePoint dw regex ∈ bps) (hnz : resolvePoint dw regex ≠ 0) :
    breakCommand dw bps regex
      = (BPOutput.setBreakpoint bps.length (resolvePoint dw regex),
         bps ++ [resolvePoint dw regex])
    ∧ (bps ++ [resolvePoint dw regex]).count (resolvePoint dw regex)
      = bps.count (resolvePoint dw regex) + 1 := by
  constructor
  · simp [breakCommand, hstar, hnz]
  · simp

theorem c6_witness :
    starts_with_star mainChars = false
    ∧ resolvePoint dwMain mainChars ∈ [(0x1000 : Nat)]
    ∧ resolvePoint dwMain mainChars ≠ 0
    ∧ (breakCommand dwMain [0x1000] mainChars
        = (BPOutput.setBreakpoint ([(0x1000 : Nat)]).length (resolvePoint dwMain mainChars),
           [0x1000] ++ [resolvePoint dwMain mainChars])
      ∧ ([0x1000] ++ [resolvePoint dwMain mainChars]).count (resolvePoint dwMain mainChars)
        = ([(0x1000 : Nat)]).count (resolvePoint dwMain mainChars) + 1) :=
  ⟨by decide, by decide, by decide,
    c6_amended_duplicates_appended dwMain [0x1000] mainChars (by decide) (by decide)
      (by decide)⟩

/-- C7: the claim states that a `*0xADDR` literal location stores the same
address a function-name location for the same entry point stores.  The
code does not: in the `*` branch the parsed address is assigned to `point`
and then discarded — the branch unconditionally prints the no-breakpoint
message and adds nothing, while `break main` stores `0x1000`.  Both
locations denote the same address (`parse_address` maps the stripped
literal to `0x1000`, the symbol index maps `main` to `0x1000`). -/
theorem c7_literal_breakpoint_discarded :
    breakCommand dwMain [] literal1000Chars
      = (BPOutput.noBreakpointSet stripped1000Chars, [])
    ∧ breakCommand dwMain [] mainChars = (BPOutput.setBreakpoint 0 0x1000, [0x1000])
    ∧ parse_address stripped1000Chars = some 0x1000
    ∧ dwMain.get_addr_for_function mainChars = some 0x1000 := by
  decide

/-- C8 counterexample: for the location text `ff` on a target with a
function `ff` at `0x2000` and no code at line 255, the spec's resolution
order (decimal line number first, function name if that fails) yields
`0x2000`, but the code parses `ff` as the hexadecimal number 255, misses
in the line lookup, never tries the function lookup, and adds nothing. -/
theorem c8_counterexample :
    parse_decimal ffChars = none
    ∧ resolveSpecPoint dwFF ffChars = some 0x2000
    ∧ parse_address ffChars = some 255
    ∧ dwFF.get_addr_for_line 255 = none
    ∧ dwFF.get_addr_for_function ffChars = some 0x2000
    ∧ breakCommand dwFF [] ffChars = (BPOutput.noBreakpointSet ffChars, []) := by
  decide

/-- C8 amended: for every non-literal location the code first tries the
text as a hexadecimal number (optional case-insensitive `0x` prefix) used
as a line number; when the text parses as a number but the line lookup
misses, the function-name lookup is skipped and nothing is added; only
when the text is not a hexadecimal number is it tried as a function name;
when nothing resolves (to a nonzero address) a failure is reported and the
table is unchanged. -/
theorem c8_amended_hex_line_no_fallthrough (dw : DwarfData) (bps : List Nat)
    (regex : List Char) (hstar : starts_with_star regex = false) :
    (∀ line, parse_address regex = some line → dw.get_addr_for_line line = none →
        breakCommand dw bps regex = (BPOutput.noBreakpointSet regex, bps))
    ∧ (∀ addr, parse_address regex = none → dw.get_addr_for_function regex = some addr →
        addr ≠ 0 →
        breakCommand dw bps regex = (BPOutput.setBreakpoint bps.length addr, bps ++ [addr]))
    ∧ (parse_address regex = none → dw.get_addr_for_function regex = none →
        breakCommand dw bps regex = (BPOutput.noBreakpointSet regex, bps)) := by
  refine ⟨?_, ?_, ?_⟩
  · intro line hp hl
    simp [breakCommand, hstar, resolvePoint, hp, hl]
  · intro addr hp hf hnz
    simp [breakCommand, hstar, resolvePoint, hp, hf, hnz]
  · intro hp hf
    simp [breakCommand, hstar, resolvePoint, hp, hf]

theorem c8_witness :
    starts_with_star ffChars = false
    ∧ breakCommand dwFF [] ffChars = (BPOutput.noBreakpointSet ffChars, []) :=
  ⟨by decide,
    (c8_amended_hex_line_no_fallthrough dwFF [] ffChars (by decide)).1 255
      (by decide) (by decide)⟩

/-- C9: the claim states every failure while handling a command short of a
symbol-load failure is reported and the session loop continues.  The code
does not: patching a resolved breakpoint into a live-but-gone inferior
(`write_byte(point, 0xcc).unwrap()`) panics, aborting the whole debugger
process; with the ptrace calls succeeding the same command continues
normally. -/
theorem c9_patch_failure_panics :
    breakCommandSession dwMain [] mainChars (some false) = CmdOutcome.panicked
    ∧ breakCommandSession dwMain [] mainChars (some true)
      = CmdOutcome.continues (BPOutput.setBreakpoint 0 0x1000) [0x1000] := by
  decide

/-- C10: any non-literal location whose resolution leaves `point = 0` —
a line lookup returning address 0, a function lookup returning address 0,
or no lookup succeeding at all — prints the no-breakpoint message and adds
nothing to the table: address 0 is the code's unresolved sentinel. -/
theorem c10_zero_address_is_unresolved_sentinel (dw : DwarfData) (bps : List Nat)
    (regex : List Char) (hstar : starts_with_star regex = false)
    (h0 : resolvePoint dw regex = 0) :
    breakCommand dw bps regex = (BPOutput.noBreakpointSet regex, bps) := by
  simp [breakCommand, hstar, h0]

theorem c10_witness :
    starts_with_star aChars = false
    ∧ resolvePoint dwLineZero aChars = 0
    ∧ parse_address aChars = some 10
    ∧ dwLineZero.get_addr_for_line 10 = some 0
    ∧ breakCommand dwLineZero [] aChars = (BPOutput.noBreakpointSet aChars, []) :=
  ⟨by decide, by decide, by decide, by decide,
    c10_zero_address_is_unresolved_sentinel dwLineZero [] aChars (by decide) (by decide)⟩

end Deet
